import Mathlib

/-!
# Drand oracle updater: `updater/internal/service/updater.go`

A shallow embedding of the round-relay engine of the updater service.

* `uint64` values are natural numbers; every `uint64` operation of the source that
  can wrap is written with an explicit `% 2 ^ 64`.
* The external collaborators (signer, chain RPC, contract binding, beacon client)
  are not part of the program: what they answer is an input of the model
  (`Outcome`, `AttemptEnv`, `CatchUpEnv`, `StartEnv`), and every call made to them
  is recorded, in order, in a trace of `Event`s.
* Loops that need not terminate (`catchUp`) or whose bound is a run-time value
  (`processRounds`) take fuel; the exit `outOfFuel` is distinct from every exit
  of the source.
-/

namespace DrandOracle

/-- A byte slice (`[]byte`). -/
abbrev Bytes := List Nat

/-- Error values (`error`) that the service can return. -/
inductive Err where
  /-- an error returned by an external collaborator (signer, RPC, binding, beacon) -/
  | external (code : Nat)
  /-- `errors.New("chain hash mismatch")` -/
  | chainHashMismatch
  /-- `errors.New("set randomness transaction failed")` -/
  | txFailed
  /-- `ctx.Err()` once the context is done -/
  | ctxDone
  deriving DecidableEq, Repr

/-- The record `roundData` carried by `roundChan`. -/
structure roundData where
  round : Nat
  randomness : Bytes
  signature : Bytes
  deriving DecidableEq, Repr

/-- The fields of `chain.Info` the service reads: `GenesisTime` is an `int64` number of
seconds, `Period` a `time.Duration` (an `int64` number of nanoseconds), `hash` what
`Hash()` returns. -/
structure Info where
  GenesisTime : Int
  Period : Int
  hash : Bytes
  deriving DecidableEq, Repr

/-- Modelled from the spec: the metrics sink `Metrics` (its file is not part of the
sources at hand): round gauges and submission success/failure counters. A gauge keeps
the round it was last set to. -/
structure Metrics where
  drandRound : Nat
  oracleRound : Nat
  setRandomnessSuccess : Nat
  setRandomnessFailure : Nat
  deriving DecidableEq, Repr

/-- Modelled from the spec: `Metrics.IncSetRandomnessFailure` adds one to the
failure counter. -/
def Metrics.IncSetRandomnessFailure (m : Metrics) : Metrics :=
  { m with setRandomnessFailure := m.setRandomnessFailure + 1 }

/-- Modelled from the spec: `Metrics.IncSetRandomnessSuccess` adds one to the
success counter. -/
def Metrics.IncSetRandomnessSuccess (m : Metrics) : Metrics :=
  { m with setRandomnessSuccess := m.setRandomnessSuccess + 1 }

/-- Modelled from the spec: `Metrics.SetOracleRound` sets the oracle round gauge. -/
def Metrics.SetOracleRound (m : Metrics) (round : Nat) : Metrics :=
  { m with oracleRound := round }

/-- The mutable and configured fields of `Updater` that the modelled functions use. -/
structure Updater where
  drandInfo : Info
  setRandomnessGasLimit : Nat
  genesisRound : Nat
  maxRetries : Int
  latestOracleRound : Nat
  latestDrandRound : Nat
  metrics : Metrics
  deriving DecidableEq, Repr

/-- The four goroutines that `Start` hands to the error group. -/
inductive Driver where
  | processRounds
  | catchUp
  | watchNewRounds
  | monitorBalance
  deriving DecidableEq, Repr

/-- Observable actions, in the order the code performs them. -/
inductive Event where
  /-- `u.signer.SignSetRandomness(round, roundTimestamp, [32]byte(randomness), signature)` -/
  | signSetRandomness (round timestamp : Nat) (randomness signature : Bytes)
  /-- `u.rpcClient.SuggestGasPrice(ctx)` -/
  | suggestGasPrice
  /-- `u.binding.SetRandomness(opts, random, eip712Signature)` -/
  | setRandomness (gasLimit gasPrice round timestamp : Nat)
      (randomness signature eip712Signature : Bytes)
  /-- `bind.WaitMined(ctx, u.rpcClient, tx)` -/
  | waitMined (tx : Nat)
  /-- the assignment `u.latestOracleRound = round` -/
  | storeLatestOracleRound (round : Nat)
  /-- `rd := <-u.roundChan` in `processRounds` -/
  | dequeue (rd : roundData)
  /-- the call `u.processRound(ctx, rd.round, rd.randomness, rd.signature)` of attempt `attempt` -/
  | callProcessRound (attempt : Nat)
  /-- the `select` on `time.After(backoffDuration)`; `none` when the duration is not
  determined by the language -/
  | backoff (duration : Option Int)
  /-- `u.drandClient.Get(ctx, round)` -/
  | drandGet (round : Nat)
  /-- a completed send `u.roundChan <- &roundData{...}` -/
  | push (rd : roundData)
  /-- `u.binding.EarliestRound(nil)` -/
  | earliestRound
  /-- `u.binding.LatestRound(nil)` -/
  | latestRound
  /-- `u.drandClient.Info(ctx)` -/
  | drandInfo
  /-- `u.binding.CHAINHASH(nil)` -/
  | chainHash
  /-- `errg.Go(...)` of one driver -/
  | launch (d : Driver)
  deriving DecidableEq, Repr

/-- How a call of `processRound` ends: `return nil`, `return err`, or the run-time panic
of the conversion `[32]byte(randomness)` on a slice shorter than 32 bytes. -/
inductive Ret where
  | ok
  | error (e : Err)
  | panicked
  deriving DecidableEq, Repr

/-- `types.ReceiptStatusSuccessful`. -/
def ReceiptStatusSuccessful : Nat := 1

/-- What the collaborators answer during one call of `processRound`: the signer, the
gas-price RPC, the transaction submission (the transaction, as a number) and the wait
for the receipt (its `Status`). An answer is consulted only if the call is made. -/
structure Outcome where
  sign : Except Err Bytes
  gasPrice : Except Err Nat
  submit : Except Err Nat
  mined : Except Err Nat

/-- The conversion `uint64(x)` of an `int64`. -/
def uint64OfInt (x : Int) : Nat := (x % 2 ^ 64).toNat

/-- The expression `uint64(u.drandInfo.Period.Seconds())`. `Seconds()` is a `float64`;
for a non-negative period of a whole number of seconds it is that number exactly (it is
below `2 ^ 53`), which is the case the theorems below are stated for. -/
def periodSeconds (period : Int) : Nat := (period / 1000000000).toNat % 2 ^ 64

/-- The value `roundTimestamp` of `processRound`:
`uint64(GenesisTime) + uint64(round-1)*uint64(Period.Seconds())` in `uint64` arithmetic. -/
def roundTimestamp (info : Info) (round : Nat) : Nat :=
  (uint64OfInt info.GenesisTime
    + ((round + (2 ^ 64 - 1)) % 2 ^ 64) * periodSeconds info.Period % 2 ^ 64) % 2 ^ 64

/-- Result of `processRound`: how it returned, the updater afterwards, the calls made. -/
structure RoundResult where
  ret : Ret
  state : Updater
  trace : List Event

/-- The guard of `processRound`: `round != u.genesisRound && u.latestOracleRound+1 != round`. -/
def skips (u : Updater) (round : Nat) : Prop :=
  round ≠ u.genesisRound ∧ (u.latestOracleRound + 1) % 2 ^ 64 ≠ round

instance (u : Updater) (round : Nat) : Decidable (skips u round) := by
  unfold skips; infer_instance

/-- The method `Updater.processRound`. -/
def processRound (u : Updater) (rd : roundData) (oc : Outcome) : RoundResult :=
  if skips u rd.round then
    ⟨.ok, u, []⟩
  else
    let ts := roundTimestamp u.drandInfo rd.round
    if rd.randomness.length < 32 then
      ⟨.panicked, u, []⟩
    else
      let rnd := rd.randomness.take 32
      let evSign := Event.signSetRandomness rd.round ts rnd rd.signature
      match oc.sign with
      | .error e => ⟨.error e, u, [evSign]⟩
      | .ok eip712Signature =>
        match oc.gasPrice with
        | .error e => ⟨.error e, u, [evSign, .suggestGasPrice]⟩
        | .ok gasPrice =>
          let evSet := Event.setRandomness u.setRandomnessGasLimit gasPrice rd.round ts rnd
            rd.signature eip712Signature
          match oc.submit with
          | .error e => ⟨.error e, u, [evSign, .suggestGasPrice, evSet]⟩
          | .ok tx =>
            match oc.mined with
            | .error e => ⟨.error e, u, [evSign, .suggestGasPrice, evSet, .waitMined tx]⟩
            | .ok status =>
              if status ≠ ReceiptStatusSuccessful then
                ⟨.error .txFailed,
                  { u with metrics := u.metrics.IncSetRandomnessFailure },
                  [evSign, .suggestGasPrice, evSet, .waitMined tx]⟩
              else
                ⟨.ok,
                  { u with
                    latestOracleRound := rd.round
                    metrics := (u.metrics.SetOracleRound rd.round).IncSetRandomnessSuccess },
                  [evSign, .suggestGasPrice, evSet, .waitMined tx,
                    .storeLatestOracleRound rd.round]⟩

/-! ## `processRounds` -/

/-- `time.Second`, in nanoseconds. -/
def Second : Int := 1000000000

/-- Two's-complement wrap of an integer into the range of `int64`. -/
def wrapInt64 (x : Int) : Int := (x + 2 ^ 63) % 2 ^ 64 - 2 ^ 63

/-- `time.Duration(math.Pow(2, float64(attempt)))`: the power of two is exact as a
`float64`; its conversion to `int64` is exact below `2 ^ 63` and left to the
implementation by the language from there on (`none`). -/
def powDuration (attempt : Nat) : Option Int :=
  if attempt < 63 then some (2 ^ attempt) else none

/-- The value `backoffDuration` of `processRounds`:
`time.Duration(math.Pow(2, float64(attempt))) * time.Second`, an `int64` product. -/
def backoffDuration (attempt : Nat) : Option Int :=
  (powDuration attempt).map fun d => wrapInt64 (d * Second)

/-- What the environment does around one attempt: the collaborators' answers, and
whether `ctx.Done()` is the case the `select` of the backoff takes. -/
structure AttemptEnv where
  outcome : Outcome
  ctxDone : Bool

/-- How the retry loop `for attempt := 0; attempt < u.maxRetries; attempt++` is left. -/
inductive LoopExit where
  /-- the loop is over (by `break` or by its condition), `err` holding this value -/
  | finished (err : Option Err)
  /-- `return ctx.Err()` from the backoff `select` -/
  | returned (e : Err)
  /-- `processRound` panicked -/
  | panicked
  | outOfFuel
  deriving DecidableEq, Repr

/-- Result of the retry loop. -/
structure LoopResult where
  exit : LoopExit
  state : Updater
  trace : List Event

/-- Put the events `evs` in front of a loop result. -/
def LoopResult.after (evs : List Event) (r : LoopResult) : LoopResult :=
  { r with trace := evs ++ r.trace }

/-- The retry loop of `processRounds` for the dequeued record `rd`, at loop variable
`attempt`, the variable `err` holding `err`. `env k` is the environment of attempt `k`. -/
def attemptLoop (maxRetries : Int) (rd : roundData) (env : Nat → AttemptEnv) :
    Nat → Nat → Option Err → Updater → LoopResult
  | 0, _, _, u => ⟨.outOfFuel, u, []⟩
  | fuel + 1, attempt, err, u =>
    if (attempt : Int) < maxRetries then
      let r := processRound u rd (env attempt).outcome
      let evs := Event.callProcessRound attempt :: r.trace
      match r.ret with
      | .panicked => ⟨.panicked, r.state, evs⟩
      | .ok => ⟨.finished none, r.state, evs⟩
      | .error e =>
        if (attempt : Int) < maxRetries - 1 then
          if (env attempt).ctxDone then
            ⟨.returned .ctxDone, r.state, evs ++ [.backoff (backoffDuration attempt)]⟩
          else
            (attemptLoop maxRetries rd env fuel (attempt + 1) (some e) r.state).after
              (evs ++ [.backoff (backoffDuration attempt)])
        else
          (attemptLoop maxRetries rd env fuel (attempt + 1) (some e) r.state).after evs
    else
      ⟨.finished err, u, []⟩

/-- What the outer `select` of `processRounds` receives: the context is done, or a
record arrives on `roundChan` (with the environment of its attempts). -/
inductive QueueItem where
  | ctxDone
  | recv (rd : roundData) (env : Nat → AttemptEnv)

/-- How `processRounds` ends: it returns an error (it has no `return nil`), panics, or
stays blocked in its `select` because nothing more arrives. -/
inductive ProcExit where
  | returned (e : Err)
  | panicked
  | blocked
  | outOfFuel
  deriving DecidableEq, Repr

/-- Result of `processRounds`. -/
structure ProcResult where
  exit : ProcExit
  state : Updater
  trace : List Event

/-- Put the events `evs` in front of a result of `processRounds`. -/
def ProcResult.after (evs : List Event) (r : ProcResult) : ProcResult :=
  { r with trace := evs ++ r.trace }

/-- The method `Updater.processRounds`, run on what its outer `select` receives. The
retry loop of a record gets `maxRetries + 1` units of fuel, one more than the number of
times its condition can hold. -/
def processRounds (u : Updater) : List QueueItem → ProcResult
  | [] => ⟨.blocked, u, []⟩
  | .ctxDone :: _ => ⟨.returned .ctxDone, u, []⟩
  | .recv rd env :: rest =>
    let r := attemptLoop u.maxRetries rd env (u.maxRetries.toNat + 1) 0 none u
    let evs := Event.dequeue rd :: r.trace
    match r.exit with
    | .finished none => (processRounds r.state rest).after evs
    | .finished (some e) => ⟨.returned e, r.state, evs⟩
    | .returned e => ⟨.returned e, r.state, evs⟩
    | .panicked => ⟨.panicked, r.state, evs⟩
    | .outOfFuel => ⟨.outOfFuel, r.state, evs⟩

/-- Feeding records, each with the collaborators' answers for it, one after another to
`processRound`; a panic ends the run. The result is the final updater and all events. -/
def feed (u : Updater) : List (roundData × Outcome) → Updater × List Event
  | [] => (u, [])
  | (rd, oc) :: rest =>
    let r := processRound u rd oc
    match r.ret with
    | .panicked => (r.state, r.trace)
    | _ => ((feed r.state rest).1, r.trace ++ (feed r.state rest).2)

/-- The values written to `latestOracleRound`, in order. -/
def commits : List Event → List Nat
  | [] => []
  | .storeLatestOracleRound r :: evs => r :: commits evs
  | _ :: evs => commits evs

/-- All four answers are successes and the receipt status is
`types.ReceiptStatusSuccessful`. -/
def Outcome.allSucceed (oc : Outcome) : Prop :=
  (∃ s, oc.sign = .ok s) ∧ (∃ g, oc.gasPrice = .ok g) ∧ (∃ t, oc.submit = .ok t) ∧
    oc.mined = .ok ReceiptStatusSuccessful

/-- The transaction is mined (signing, gas price and submission succeeded) with a
receipt status other than `types.ReceiptStatusSuccessful`. -/
def Outcome.minedFailed (oc : Outcome) : Prop :=
  (∃ s, oc.sign = .ok s) ∧ (∃ g, oc.gasPrice = .ok g) ∧ (∃ t, oc.submit = .ok t) ∧
    ∃ st, oc.mined = .ok st ∧ st ≠ ReceiptStatusSuccessful

/-- The record is accepted by the guard of `processRound`:
`round == genesisRound` or `round == latestOracleRound+1`. -/
def accepted (u : Updater) (round : Nat) : Prop :=
  round = u.genesisRound ∨ round = (u.latestOracleRound + 1) % 2 ^ 64

instance (u : Updater) (round : Nat) : Decidable (accepted u round) := by
  unfold accepted; infer_instance

/-! ## `catchUp` -/

/-- What the environment does during `catchUp`: the answer of `u.drandClient.Get(ctx, r)`
(the round, randomness and signature of the result), and whether `ctx.Done()` is the
case taken by the `select` that sends the result fetched for `r`. -/
structure CatchUpEnv where
  get : Nat → Except Err roundData
  ctxDone : Nat → Bool

/-- How the inner loop `for currentRound <= latestDrandRound` is left. -/
inductive FetchExit where
  /-- the loop condition is false -/
  | finished
  /-- `return err` or `return ctx.Err()` -/
  | returned (e : Err)
  | outOfFuel
  deriving DecidableEq, Repr

/-- The inner loop of `catchUp` at `currentRound`, against the snapshot
`latestDrandRound`; `currentRound++` is a `uint64` increment. -/
def fetchLoop (env : CatchUpEnv) (latestDrandRound : Nat) : Nat → Nat → FetchExit × List Event
  | 0, _ => (.outOfFuel, [])
  | fuel + 1, currentRound =>
    if currentRound ≤ latestDrandRound then
      match env.get currentRound with
      | .error e => (.returned e, [.drandGet currentRound])
      | .ok result =>
        if env.ctxDone currentRound then
          (.returned .ctxDone, [.drandGet currentRound])
        else
          let r := fetchLoop env latestDrandRound fuel ((currentRound + 1) % 2 ^ 64)
          (r.1, .drandGet currentRound :: .push result :: r.2)
    else
      (.finished, [])

/-- How one pass of the outer loop of `catchUp` is left. -/
inductive PassExit where
  /-- `break`: the two cursors are equal -/
  | caughtUp
  /-- the inner loop is over; the outer loop starts its next pass -/
  | again
  /-- `return err` or `return ctx.Err()` -/
  | returned (e : Err)
  | outOfFuel
  deriving DecidableEq, Repr

/-- The round the inner loop of a pass starts at. -/
def startRound (genesisRound latestOracleRound : Nat) : Nat :=
  if latestOracleRound = 0 then genesisRound else (latestOracleRound + 1) % 2 ^ 64

/-- One pass of the outer loop of `catchUp`, having read the two cursors. -/
def catchUpPass (genesisRound : Nat) (env : CatchUpEnv) (fuel : Nat)
    (latestDrandRound latestOracleRound : Nat) : PassExit × List Event :=
  if latestDrandRound = latestOracleRound then
    (.caughtUp, [])
  else
    match fetchLoop env latestDrandRound fuel (startRound genesisRound latestOracleRound) with
    | (.finished, t) => (.again, t)
    | (.returned e, t) => (.returned e, t)
    | (.outOfFuel, t) => (.outOfFuel, t)

/-- How `catchUp` ends: `return nil` (`none`), `return` of an error, or not within the fuel. -/
inductive CatchUpExit where
  | returned (err : Option Err)
  | outOfFuel
  deriving DecidableEq, Repr

/-- The method `Updater.catchUp`. The cursors are written by other goroutines, so what
pass `n` reads, `cursors n = (latestDrandRound, latestOracleRound)`, is an input. Each
pass of the outer loop takes one unit of fuel and hands the rest to its inner loop. -/
def catchUp (genesisRound : Nat) (env : CatchUpEnv) (cursors : Nat → Nat × Nat) :
    Nat → Nat → CatchUpExit × List Event
  | 0, _ => (.outOfFuel, [])
  | fuel + 1, pass =>
    match catchUpPass genesisRound env fuel (cursors pass).1 (cursors pass).2 with
    | (.caughtUp, t) => (.returned none, t)
    | (.again, t) =>
      let r := catchUp genesisRound env cursors fuel (pass + 1)
      (r.1, t ++ r.2)
    | (.returned e, t) => (.returned (some e), t)
    | (.outOfFuel, t) => (.outOfFuel, t)

/-- The events of fetching and pushing the rounds of `rounds`, one fetch followed by one
push at a time, `record r` being the record of round `r`. -/
def fetchPush (record : Nat → roundData) (rounds : List Nat) : List Event :=
  rounds.flatMap fun r => [Event.drandGet r, Event.push (record r)]

/-- The rounds pushed by a trace, in order. -/
def pushedRounds : List Event → List Nat
  | [] => []
  | .push rd :: evs => rd.round :: pushedRounds evs
  | _ :: evs => pushedRounds evs

/-! ## `Start` -/

/-- What the collaborators answer to the fetches of `Start`: `EarliestRound`,
`LatestRound`, the round of `drandClient.Get(ctx, 0)`, `drandClient.Info` and
`CHAINHASH` (a `[32]byte`). An answer is consulted only if the call is made. -/
structure StartEnv where
  earliestRound : Except Err Nat
  latestRound : Except Err Nat
  drandLatest : Except Err Nat
  info : Except Err Info
  chainHash : Except Err Bytes

/-- How `Start` goes on after its fetches: it returns an error before the error group
exists, or it hands the drivers to the error group (what `errg.Wait()` then returns
depends on the concurrent run of the drivers and is not modelled). -/
inductive StartExit where
  | failed (e : Err)
  | launched (u : Updater)
  deriving DecidableEq, Repr

/-- The method `Updater.Start` up to `errg.Wait()`: the exit and the calls made. -/
def Start (u : Updater) (env : StartEnv) : StartExit × List Event :=
  match env.earliestRound with
  | .error e => (.failed e, [.earliestRound])
  | .ok _ =>
    match env.latestRound with
    | .error e => (.failed e, [.earliestRound, .latestRound])
    | .ok latestRound =>
      match env.drandLatest with
      | .error e => (.failed e, [.earliestRound, .latestRound, .drandGet 0])
      | .ok latestDrandRound =>
        match env.info with
        | .error e => (.failed e, [.earliestRound, .latestRound, .drandGet 0, .drandInfo])
        | .ok info =>
          match env.chainHash with
          | .error e =>
            (.failed e, [.earliestRound, .latestRound, .drandGet 0, .drandInfo, .chainHash])
          | .ok chainHash =>
            if chainHash ≠ info.hash then
              (.failed .chainHashMismatch,
                [.earliestRound, .latestRound, .drandGet 0, .drandInfo, .chainHash])
            else
              (.launched
                { u with
                  latestOracleRound := latestRound
                  latestDrandRound := latestDrandRound
                  drandInfo := info },
                [.earliestRound, .latestRound, .drandGet 0, .drandInfo, .chainHash,
                  .launch .processRounds, .launch .catchUp, .launch .watchNewRounds,
                  .launch .monitorBalance])

/-- The drivers launched by a trace, in order. -/
def launchedDrivers : List Event → List Driver
  | [] => []
  | .launch d :: evs => d :: launchedDrivers evs
  | _ :: evs => launchedDrivers evs

/-- An event is a push to the queue or the submission of a transaction. -/
def Event.isPushOrSubmit : Event → Bool
  | .push _ => true
  | .setRandomness .. => true
  | _ => false

/-- An event of the loops of `processRounds` itself: a dequeue, a call of
`processRound`, a backoff. -/
def Event.isLoopEvent : Event → Bool
  | .dequeue _ => true
  | .callProcessRound _ => true
  | .backoff _ => true
  | _ => false

/-- The events of a trace that are those of the loops of `processRounds` itself. -/
def loopEvents (t : List Event) : List Event := t.filter Event.isLoopEvent

/-- The number of calls of `processRound` in a trace. -/
def countCalls : List Event → Nat
  | [] => 0
  | .callProcessRound _ :: evs => countCalls evs + 1
  | _ :: evs => countCalls evs

/-- The number of backoff waits in a trace. -/
def countBackoffs : List Event → Nat
  | [] => 0
  | .backoff _ :: evs => countBackoffs evs + 1
  | _ :: evs => countBackoffs evs

/-- The records dequeued in a trace, in order. -/
def dequeued : List Event → List roundData
  | [] => []
  | .dequeue rd :: evs => rd :: dequeued evs
  | _ :: evs => dequeued evs

/-- The schedule of `n` attempts from attempt `k` on that all fail: a call for each, one
backoff between each two consecutive calls, none after the last. -/
def retrySchedule : Nat → Nat → List Event
  | _, 0 => []
  | k, 1 => [.callProcessRound k]
  | k, n + 2 =>
    .callProcessRound k :: .backoff (backoffDuration k) :: retrySchedule (k + 1) (n + 1)

/-- All that the guard of `processRound` ensures of committed values: each is the
genesis round or one past (in `uint64`) the value of the cursor before it, `prev` before
the first. -/
def CommitChain (genesisRound : Nat) : Nat → List Nat → Prop
  | _, [] => True
  | prev, c :: cs =>
    (c = genesisRound ∨ c = (prev + 1) % 2 ^ 64) ∧ CommitChain genesisRound c cs

/-- The committed values in the spec's words: they start at the genesis round and each
later one is the one before it plus 1. -/
def SpecCommits (genesisRound : Nat) : List Nat → Prop
  | [] => True
  | c :: cs => c = genesisRound ∧ List.Chain (fun a b => b = a + 1) c cs

/-! ## Concrete inputs -/

/-- Metrics with all gauges and counters at zero. -/
def metrics0 : Metrics := ⟨0, 0, 0, 0⟩

/-- A beacon with genesis time 1000 and a period of 30 seconds. -/
def info30 : Info := ⟨1000, 30000000000, [7]⟩

/-- An updater with genesis round 5, three attempts a round, and the oracle cursor at
`latest`. -/
def updater5 (latest : Nat) : Updater := ⟨info30, 100000, 5, 3, latest, 0, metrics0⟩

/-- A record of round `r` with 32 bytes of randomness. -/
def record (r : Nat) : roundData := ⟨r, List.replicate 32 0, [1, 2]⟩

/-- Every collaborator succeeds and the receipt status is successful. -/
def ocSuccess : Outcome := ⟨.ok [9], .ok 2, .ok 77, .ok 1⟩

/-- The transaction is mined with receipt status 0 (failed). -/
def ocReverted : Outcome := ⟨.ok [9], .ok 2, .ok 77, .ok 0⟩

/-- The signer fails. -/
def ocSignFails : Outcome := ⟨.error (.external 1), .ok 2, .ok 77, .ok 1⟩

/-- The timestamp formula in the spec's words, over the integers:
`genesisTime + (round − 1) × periodSeconds`. -/
def specTimestamp (genesisTime periodSeconds : Int) (round : Nat) : Int :=
  genesisTime + ((round : Int) - 1) * periodSeconds

/-- A beacon with genesis time 1000 and a period of 2 seconds. -/
def info2 : Info := ⟨1000, 2000000000, [7]⟩

/-- An updater whose genesis round is `2 ^ 63 + 1`, the oracle never updated. -/
def updaterBig : Updater := ⟨info2, 100000, 2 ^ 63 + 1, 3, 0, 0, metrics0⟩

/-- The environment in which every attempt has the outcome `oc` and the context is
never done. -/
def always (oc : Outcome) : Nat → AttemptEnv := fun _ => ⟨oc, false⟩

/-- An updater with genesis round 5, the oracle cursor at 7, and `maxRetries` as given. -/
def updaterRetries (maxRetries : Int) : Updater :=
  ⟨info30, 100000, 5, maxRetries, 7, 0, metrics0⟩

/-- The beacon that answers `get r` with the record of round `r`, the context never
done. -/
def beaconAll : CatchUpEnv := ⟨fun r => .ok (record r), fun _ => false⟩

/-- The beacon `beaconAll`, except that the fetch of round 103 fails. -/
def beaconFails103 : CatchUpEnv :=
  ⟨fun r => if r = 103 then .error (.external 4) else .ok (record r), fun _ => false⟩

/-- The collaborators' answers at a startup where the oracle contract holds the chain
hash `h`, the beacon info being `info30` (whose hash is `[7]`). -/
def startEnv (h : Bytes) : StartEnv := ⟨.ok 5, .ok 7, .ok 12, .ok info30, .ok h⟩

/-! ## Theorems -/


/-- The guard of `processRound` does not skip exactly the accepted rounds. -/
theorem not_skips_iff (u : Updater) (round : Nat) : ¬ skips u round ↔ accepted u round := by
  unfold skips accepted
  constructor
  · intro h
    by_cases hg : round = u.genesisRound
    · exact Or.inl hg
    · right
      by_contra hn
      exact h ⟨hg, fun h2 => hn h2.symm⟩
  · rintro (h | h) ⟨h1, h2⟩
    · exact h1 h
    · exact h2 h.symm

/-- A skipped round: `return nil`, nothing called, nothing changed. -/
theorem processRound_of_skips (u : Updater) (rd : roundData) (oc : Outcome)
    (h : skips u rd.round) : processRound u rd oc = ⟨.ok, u, []⟩ := by
  unfold processRound
  simp [h]

/-- An accepted round with all answers successful is committed. -/
theorem processRound_of_allSucceed (u : Updater) (rd : roundData) (oc : Outcome)
    (hacc : accepted u rd.round) (hlen : 32 ≤ rd.randomness.length) (h : oc.allSucceed) :
    (processRound u rd oc).ret = .ok ∧
      (processRound u rd oc).state = { u with
        latestOracleRound := rd.round
        metrics := (u.metrics.SetOracleRound rd.round).IncSetRandomnessSuccess } ∧
      commits (processRound u rd oc).trace = [rd.round] := by
  have hs : ¬ skips u rd.round := (not_skips_iff u rd.round).2 hacc
  have hl : ¬ rd.randomness.length < 32 := by omega
  obtain ⟨⟨s, hs1⟩, ⟨g, hg1⟩, ⟨t, ht1⟩, hm⟩ := h
  unfold processRound
  simp [hs, hl, hs1, hg1, ht1, hm, commits]

/-- An accepted round with some answer not successful: an error is returned, the updater
changes at most in its failure counter, and nothing is committed. -/
theorem processRound_of_not_allSucceed (u : Updater) (rd : roundData) (oc : Outcome)
    (hacc : accepted u rd.round) (hlen : 32 ≤ rd.randomness.length) (h : ¬ oc.allSucceed) :
    (∃ e, (processRound u rd oc).ret = .error e) ∧
      ((processRound u rd oc).state = u ∨ (processRound u rd oc).state =
        { u with metrics := u.metrics.IncSetRandomnessFailure }) ∧
      commits (processRound u rd oc).trace = [] := by
  have hs : ¬ skips u rd.round := (not_skips_iff u rd.round).2 hacc
  have hl : ¬ rd.randomness.length < 32 := by omega
  obtain ⟨s, g, t, m⟩ := oc
  unfold Outcome.allSucceed at h
  unfold processRound
  cases s <;> cases g <;> cases t <;> cases m <;>
    simp [hs, hl, commits] at h ⊢
  simp [h, commits]

/-- The `uint64` timestamp is the integer formula reduced modulo `2 ^ 64`, for a period
of `s` whole seconds. -/
theorem roundTimestamp_cast (info : Info) (round s : Nat)
    (hp : info.Period = (s : Int) * 1000000000) :
    (roundTimestamp info round : Int) = specTimestamp info.GenesisTime s round % 2 ^ 64 := by
  have hS : info.Period / 1000000000 = (s : Int) := by
    rw [hp]
    exact Int.mul_ediv_cancel _ (by norm_num)
  have hA : ((uint64OfInt info.GenesisTime : Nat) : Int) = info.GenesisTime % 2 ^ 64 := by
    unfold uint64OfInt
    exact Int.toNat_of_nonneg (Int.emod_nonneg _ (by norm_num))
  have hC : ((periodSeconds info.Period : Nat) : Int) = (s : Int) % 2 ^ 64 := by
    unfold periodSeconds
    rw [hS]
    push_cast
    rfl
  have h1 : (info.GenesisTime % 2 ^ 64) ≡ info.GenesisTime [ZMOD 2 ^ 64] := Int.mod_modEq _ _
  have h2 : (((round : Int) + (2 ^ 64 - 1)) % 2 ^ 64) ≡ (round : Int) - 1 [ZMOD 2 ^ 64] := by
    refine (Int.mod_modEq _ _).trans ?_
    have : (round : Int) + (2 ^ 64 - 1) = ((round : Int) - 1) + 2 ^ 64 := by ring
    rw [this]
    exact Int.add_modEq_right
  have h3 : ((s : Int) % 2 ^ 64) ≡ (s : Int) [ZMOD 2 ^ 64] := Int.mod_modEq _ _
  unfold roundTimestamp specTimestamp
  push_cast
  rw [hA, hC]
  exact h1.add ((Int.mod_modEq _ _).trans (h2.mul h3))

/-! ### The guard of `processRound` -/

/-- C1: a round record whose round is neither `genesisRound` nor `latestOracleRound+1`
(the `uint64` sum of the guard) makes `processRound` return `nil` without any call to the
signer, the gas-price RPC, `SetRandomness` or `WaitMined`, and leaves the whole updater,
in particular `latestOracleRound` and the success and failure counters, unchanged. -/
theorem processRound_out_of_sequence (u : Updater) (rd : roundData) (oc : Outcome)
    (hg : rd.round ≠ u.genesisRound)
    (hn : rd.round ≠ (u.latestOracleRound + 1) % 2 ^ 64) :
    (processRound u rd oc).ret = .ok ∧
      (processRound u rd oc).trace = [] ∧
      (processRound u rd oc).state = u ∧
      (processRound u rd oc).state.latestOracleRound = u.latestOracleRound ∧
      (processRound u rd oc).state.metrics.setRandomnessSuccess =
        u.metrics.setRandomnessSuccess ∧
      (processRound u rd oc).state.metrics.setRandomnessFailure =
        u.metrics.setRandomnessFailure := by
  have h : skips u rd.round := ⟨hg, fun h2 => hn h2.symm⟩
  rw [processRound_of_skips u rd oc h]
  exact ⟨rfl, rfl, rfl, rfl, rfl, rfl⟩

/-- Round 3 at genesis round 5 and oracle cursor 7 is skipped although every
collaborator would succeed. -/
theorem processRound_out_of_sequence_witness :
    (processRound (updater5 7) (record 3) ocSuccess).ret = .ok ∧
      (processRound (updater5 7) (record 3) ocSuccess).trace = [] ∧
      (processRound (updater5 7) (record 3) ocSuccess).state = updater5 7 ∧
      (processRound (updater5 7) (record 3) ocSuccess).state.latestOracleRound = 7 ∧
      (processRound (updater5 7) (record 3) ocSuccess).state.metrics.setRandomnessSuccess = 0 ∧
      (processRound (updater5 7) (record 3) ocSuccess).state.metrics.setRandomnessFailure = 0 :=
  processRound_out_of_sequence (updater5 7) (record 3) ocSuccess (by decide) (by decide)


/-! ### One accepted round -/

/-- An accepted round whose transaction is mined with a non-successful status. -/
theorem processRound_of_minedFailed (u : Updater) (rd : roundData) (oc : Outcome)
    (hacc : accepted u rd.round) (hlen : 32 ≤ rd.randomness.length) (h : oc.minedFailed) :
    (processRound u rd oc).ret = .error .txFailed ∧
      (processRound u rd oc).state =
        { u with metrics := u.metrics.IncSetRandomnessFailure } := by
  have hs : ¬ skips u rd.round := (not_skips_iff u rd.round).2 hacc
  have hl : ¬ rd.randomness.length < 32 := by omega
  obtain ⟨⟨s, hs1⟩, ⟨g, hg1⟩, ⟨t, ht1⟩, st, hm, hst⟩ := h
  unfold processRound
  simp [hs, hl, hs1, hg1, ht1, hm, hst]

/-- A mined transaction with a non-successful status is not a full success. -/
theorem not_allSucceed_of_minedFailed (oc : Outcome) (h : oc.minedFailed) :
    ¬ oc.allSucceed := by
  obtain ⟨_, _, _, st, hm, hst⟩ := h
  rintro ⟨_, _, _, hm2⟩
  rw [hm] at hm2
  exact hst (by injection hm2)

/-- One step of the retry loop whose attempt returns the error `e`, the context not
done: the loop goes on at the next attempt, after a backoff unless the attempt was the
last one. -/
theorem attemptLoop_step_error (maxRetries : Int) (rd : roundData) (env : Nat → AttemptEnv)
    (fuel k : Nat) (err : Option Err) (u : Updater) (e : Err)
    (hk : (k : Int) < maxRetries) (hctx : (env k).ctxDone = false)
    (he : (processRound u rd (env k).outcome).ret = .error e) :
    attemptLoop maxRetries rd env (fuel + 1) k err u =
      (attemptLoop maxRetries rd env fuel (k + 1) (some e)
        (processRound u rd (env k).outcome).state).after
        (.callProcessRound k :: (processRound u rd (env k).outcome).trace ++
          if (k : Int) < maxRetries - 1 then [.backoff (backoffDuration k)] else []) := by
  rw [attemptLoop]
  simp only [hk, if_true, he, hctx]
  split <;> simp

/-- The retry loop at a loop variable that fails its condition is over. -/
theorem attemptLoop_cond_false (maxRetries : Int) (rd : roundData) (env : Nat → AttemptEnv)
    (fuel k : Nat) (err : Option Err) (u : Updater) (hk : ¬ (k : Int) < maxRetries) :
    attemptLoop maxRetries rd env (fuel + 1) k err u = ⟨.finished err, u, []⟩ := by
  rw [attemptLoop]
  simp only [hk, if_false]

/-- C3: for an accepted round (with the 32 bytes of randomness of a round record),
`processRound` returns `nil` and sets `latestOracleRound` to the round if and only if
signing, gas-price fetch, submission and mining all succeed with a successful receipt
status; otherwise it returns an error and leaves the cursor unchanged. A mined
transaction with a non-successful status returns an error, adds exactly one to the
failure counter, leaves the success counter and the cursor unchanged, and the retry loop
goes on from attempt `k` to attempt `k + 1` with that error: it uses up one of the
`maxRetries` attempts, and when it was the last one the loop ends with that error. -/
theorem processRound_commits_iff (u : Updater) (rd : roundData) (oc : Outcome)
    (hacc : accepted u rd.round) (hlen : 32 ≤ rd.randomness.length) :
    (((processRound u rd oc).ret = .ok ∧
        (processRound u rd oc).state.latestOracleRound = rd.round ∧
        commits (processRound u rd oc).trace = [rd.round]) ↔ oc.allSucceed) ∧
      ((processRound u rd oc).ret = .ok ↔ oc.allSucceed) ∧
      (¬ oc.allSucceed →
        (∃ e, (processRound u rd oc).ret = .error e) ∧
          (processRound u rd oc).state.latestOracleRound = u.latestOracleRound ∧
          commits (processRound u rd oc).trace = []) ∧
      (oc.minedFailed →
        (processRound u rd oc).ret = .error .txFailed ∧
          (processRound u rd oc).state.metrics.setRandomnessFailure =
            u.metrics.setRandomnessFailure + 1 ∧
          (processRound u rd oc).state.metrics.setRandomnessSuccess =
            u.metrics.setRandomnessSuccess ∧
          (processRound u rd oc).state.latestOracleRound = u.latestOracleRound ∧
          ∀ (maxRetries : Int) (env : Nat → AttemptEnv) (k fuel : Nat) (err : Option Err),
            (env k).outcome = oc → (env k).ctxDone = false → (k : Int) < maxRetries →
              attemptLoop maxRetries rd env (fuel + 1) k err u =
                  (attemptLoop maxRetries rd env fuel (k + 1) (some .txFailed)
                    (processRound u rd oc).state).after
                    (.callProcessRound k :: (processRound u rd oc).trace ++
                      if (k : Int) < maxRetries - 1 then [.backoff (backoffDuration k)]
                      else []) ∧
                ((k : Int) + 1 = maxRetries →
                  (attemptLoop maxRetries rd env (fuel + 2) k err u).exit =
                    .finished (some .txFailed))) := by
  have hok : (processRound u rd oc).ret = .ok ↔ oc.allSucceed := by
    constructor
    · intro h
      by_contra hn
      obtain ⟨⟨e, he⟩, _⟩ := processRound_of_not_allSucceed u rd oc hacc hlen hn
      rw [he] at h
      exact absurd h (by simp)
    · intro h
      exact (processRound_of_allSucceed u rd oc hacc hlen h).1
  refine ⟨⟨fun h => hok.1 h.1, fun h => ?_⟩, hok, fun h => ?_, fun h => ?_⟩
  · obtain ⟨h1, h2, h3⟩ := processRound_of_allSucceed u rd oc hacc hlen h
    exact ⟨h1, by rw [h2], h3⟩
  · obtain ⟨h1, h2, h3⟩ := processRound_of_not_allSucceed u rd oc hacc hlen h
    refine ⟨h1, ?_, h3⟩
    rcases h2 with h2 | h2 <;> rw [h2]
  · obtain ⟨h1, h2⟩ := processRound_of_minedFailed u rd oc hacc hlen h
    refine ⟨h1, by rw [h2]; rfl, by rw [h2]; rfl, by rw [h2], ?_⟩
    intro maxRetries env k fuel err henv hctx hk
    subst henv
    refine ⟨attemptLoop_step_error maxRetries rd env fuel k err u .txFailed hk hctx h1, ?_⟩
    intro hlast
    rw [attemptLoop_step_error maxRetries rd env (fuel + 1) k err u .txFailed hk hctx h1]
    have hnot : ¬ (((k + 1 : Nat) : Int) < maxRetries) := by push_cast; omega
    rw [attemptLoop_cond_false maxRetries rd env fuel (k + 1) _ _ hnot]
    rfl

/-- Round 8 at oracle cursor 7 is accepted; its outcome `ocReverted` is a mined
transaction with status 0. -/
theorem processRound_commits_iff_witness :
    (processRound (updater5 7) (record 8) ocReverted).ret = .error .txFailed ∧
      (processRound (updater5 7) (record 8) ocReverted).state.metrics.setRandomnessFailure
        = 1 ∧
      (processRound (updater5 7) (record 8) ocReverted).state.latestOracleRound = 7 ∧
      ((processRound (updater5 7) (record 8) ocSuccess).ret = .ok ∧
        (processRound (updater5 7) (record 8) ocSuccess).state.latestOracleRound = 8 ∧
        commits (processRound (updater5 7) (record 8) ocSuccess).trace = [8]) := by
  have hacc : accepted (updater5 7) (record 8).round := by decide
  have hlen : 32 ≤ (record 8).randomness.length := by decide
  have hrev : ocReverted.minedFailed :=
    ⟨⟨[9], rfl⟩, ⟨2, rfl⟩, ⟨77, rfl⟩, 0, rfl, by decide⟩
  have hsucc : ocSuccess.allSucceed := ⟨⟨[9], rfl⟩, ⟨2, rfl⟩, ⟨77, rfl⟩, rfl⟩
  have h1 := (processRound_commits_iff (updater5 7) (record 8) ocReverted hacc hlen).2.2.2 hrev
  have h2 := (processRound_commits_iff (updater5 7) (record 8) ocSuccess hacc hlen).1.2 hsucc
  exact ⟨h1.1, h1.2.1, h1.2.2.2.1, h2⟩


/-! ### The timestamp of a round -/

/-- The trace of an accepted round starts with the signer call, and every call it makes
to `SetRandomness` carries the round and the timestamp given to the signer. -/
theorem processRound_trace_timestamp (u : Updater) (rd : roundData) (oc : Outcome)
    (hacc : accepted u rd.round) (hlen : 32 ≤ rd.randomness.length) :
    (∃ tail, (processRound u rd oc).trace =
        .signSetRandomness rd.round (roundTimestamp u.drandInfo rd.round)
          (rd.randomness.take 32) rd.signature :: tail) ∧
      ∀ gl gp r t rnd sg es,
        Event.setRandomness gl gp r t rnd sg es ∈ (processRound u rd oc).trace →
          r = rd.round ∧ t = roundTimestamp u.drandInfo rd.round := by
  have hs : ¬ skips u rd.round := (not_skips_iff u rd.round).2 hacc
  have hl : ¬ rd.randomness.length < 32 := by omega
  obtain ⟨s, g, t, m⟩ := oc
  unfold processRound
  cases s <;> cases g <;> cases t <;> cases m <;> simp [hs, hl]
  all_goals first
    | (intro _ _ _ _ _ _ _ _ _ h3 h4 _ _ _; exact ⟨h3, h4⟩)
    | (split <;> simp <;> (intro _ _ _ _ _ _ _ _ _ h3 h4 _ _ _; exact ⟨h3, h4⟩))


/-- C7, as the code has it: for an accepted round and a period of `s` whole seconds, the
timestamp `processRound` gives to the signer and puts into the `SetRandomness`
transaction is `genesisTime + (round - 1) * s` reduced modulo `2 ^ 64`; it is that
integer itself whenever the integer lies in the range of `uint64`. -/
theorem processRound_timestamp (u : Updater) (rd : roundData) (oc : Outcome) (s : Nat)
    (hacc : accepted u rd.round) (hlen : 32 ≤ rd.randomness.length)
    (hp : u.drandInfo.Period = (s : Int) * 1000000000) :
    (∃ tail, (processRound u rd oc).trace =
        .signSetRandomness rd.round (roundTimestamp u.drandInfo rd.round)
          (rd.randomness.take 32) rd.signature :: tail) ∧
      (∀ gl gp r t rnd sg es,
        Event.setRandomness gl gp r t rnd sg es ∈ (processRound u rd oc).trace →
          r = rd.round ∧ t = roundTimestamp u.drandInfo rd.round) ∧
      (roundTimestamp u.drandInfo rd.round : Int) =
        specTimestamp u.drandInfo.GenesisTime s rd.round % 2 ^ 64 ∧
      (0 ≤ specTimestamp u.drandInfo.GenesisTime s rd.round →
        specTimestamp u.drandInfo.GenesisTime s rd.round < 2 ^ 64 →
        (roundTimestamp u.drandInfo rd.round : Int) =
          specTimestamp u.drandInfo.GenesisTime s rd.round) := by
  obtain ⟨h1, h2⟩ := processRound_trace_timestamp u rd oc hacc hlen
  have h3 := roundTimestamp_cast u.drandInfo rd.round s hp
  refine ⟨h1, h2, h3, fun h0 hlt => ?_⟩
  rw [h3]
  exact Int.emod_eq_of_lt h0 hlt

/-- Round 8 at oracle cursor 7, genesis time 1000 and a period of 30 seconds: the
timestamp is `1000 + 7 * 30`. -/
theorem processRound_timestamp_witness :
    (roundTimestamp info30 8 : Int) = 1210 ∧
      (processRound (updater5 7) (record 8) ocSuccess).trace.head? =
        some (.signSetRandomness 8 1210 (List.replicate 32 0) [1, 2]) := by
  have h := processRound_timestamp (updater5 7) (record 8) ocSuccess 30
    (by decide) (by decide) (by decide)
  refine ⟨?_, by decide⟩
  have h4 := h.2.2.2 (by decide) (by decide)
  exact h4.trans (by decide)

/-- C7 fails where the `uint64` arithmetic wraps: with genesis round `2 ^ 63 + 1`, genesis
time 1000 and a period of 2 seconds, the accepted round `2 ^ 63 + 1` is signed and
submitted with timestamp 1000, while `genesisTime + (round - 1) * periodSeconds` is
`1000 + 2 ^ 64`. -/
theorem processRound_timestamp_wraps :
    accepted updaterBig (record (2 ^ 63 + 1)).round ∧
      (processRound updaterBig (record (2 ^ 63 + 1)) ocSuccess).trace =
        [.signSetRandomness (2 ^ 63 + 1) 1000 (List.replicate 32 0) [1, 2],
          .suggestGasPrice,
          .setRandomness 100000 2 (2 ^ 63 + 1) 1000 (List.replicate 32 0) [1, 2] [9],
          .waitMined 77,
          .storeLatestOracleRound (2 ^ 63 + 1)] ∧
      specTimestamp updaterBig.drandInfo.GenesisTime 2 (2 ^ 63 + 1) = 1000 + 2 ^ 64 ∧
      (1000 : Int) ≠ specTimestamp updaterBig.drandInfo.GenesisTime 2 (2 ^ 63 + 1) := by
  refine ⟨by decide, by decide, by decide, by decide⟩


/-! ### The retry loop of `processRounds` -/

/-- The metrics do not influence what `processRound` returns or calls. -/
theorem processRound_metrics (u : Updater) (m : Metrics) (rd : roundData) (oc : Outcome) :
    (processRound { u with metrics := m } rd oc).ret = (processRound u rd oc).ret ∧
      (processRound { u with metrics := m } rd oc).trace = (processRound u rd oc).trace := by
  by_cases h1 : skips u rd.round
  · have h1m : skips { u with metrics := m } rd.round := h1
    rw [processRound_of_skips _ rd oc h1, processRound_of_skips _ rd oc h1m]
    exact ⟨rfl, rfl⟩
  · have h1m : ¬ skips { u with metrics := m } rd.round := h1
    obtain ⟨s, g, t, st⟩ := oc
    unfold processRound
    by_cases h2 : rd.randomness.length < 32
    · simp [h1, h1m, h2]
    · cases s <;> cases g <;> cases t <;> cases st <;> simp [h1, h1m, h2]
      split <;> simp


/-- `processRound` emits no event of the loops of `processRounds`. -/
theorem loopEvents_processRound (u : Updater) (rd : roundData) (oc : Outcome) :
    loopEvents (processRound u rd oc).trace = [] := by
  obtain ⟨s, g, t, st⟩ := oc
  unfold processRound loopEvents
  split
  · rfl
  · split
    · rfl
    · cases s <;> cases g <;> cases t <;> cases st <;> simp [Event.isLoopEvent]
      split <;> simp [Event.isLoopEvent]

/-- The schedule of `n` failing attempts has `n` calls and `n - 1` backoffs. -/
theorem retrySchedule_counts (n k : Nat) :
    countCalls (retrySchedule k n) = n ∧ countBackoffs (retrySchedule k n) = n - 1 ∧
      dequeued (retrySchedule k n) = [] := by
  induction n using Nat.strong_induction_on generalizing k with
  | _ n ih =>
    match n with
    | 0 => exact ⟨rfl, rfl, rfl⟩
    | 1 => exact ⟨rfl, rfl, rfl⟩
    | n + 2 =>
      obtain ⟨h1, h2, h3⟩ := ih (n + 1) (by omega) (k + 1)
      simp only [retrySchedule, countCalls, countBackoffs, dequeued, h1, h2, h3]
      refine ⟨trivial, ?_, trivial⟩
      omega

/-- Counting in a trace only looks at the events of the loops. -/
theorem counts_loopEvents (t : List Event) :
    countCalls (loopEvents t) = countCalls t ∧
      countBackoffs (loopEvents t) = countBackoffs t ∧
      dequeued (loopEvents t) = dequeued t := by
  induction t with
  | nil => exact ⟨rfl, rfl, rfl⟩
  | cons e t ih =>
    obtain ⟨h1, h2, h3⟩ := ih
    unfold loopEvents at *
    cases e <;>
      simp [List.filter, Event.isLoopEvent, countCalls, countBackoffs, dequeued, h1, h2, h3]

/-- The retry loop on a record every attempt of which fails, the context never done:
it ends, after the attempts `k`, …, `N - 1`, with the error of the last attempt. -/
theorem attemptLoop_all_fail (u : Updater) (rd : roundData) (env : Nat → AttemptEnv)
    (N : Nat) (hacc : accepted u rd.round) (hlen : 32 ≤ rd.randomness.length)
    (hfail : ∀ j, j < N → ¬ (env j).outcome.allSucceed)
    (hctx : ∀ j, j < N → (env j).ctxDone = false) (e : Err)
    (he : (processRound u rd (env (N - 1)).outcome).ret = .error e) :
    ∀ (m k : Nat) (err : Option Err) (mt : Metrics) (fuel : Nat),
      k + m + 1 = N → m + 2 ≤ fuel →
        (attemptLoop (N : Int) rd env fuel k err { u with metrics := mt }).exit =
            .finished (some e) ∧
          (∃ mt', (attemptLoop (N : Int) rd env fuel k err { u with metrics := mt }).state =
            { u with metrics := mt' }) ∧
          loopEvents (attemptLoop (N : Int) rd env fuel k err { u with metrics := mt }).trace =
            retrySchedule k (m + 1) := by
  intro m
  induction m with
  | zero =>
    intro k err mt fuel hk hfuel
    obtain ⟨f, rfl⟩ : ∃ f, fuel = f + 2 := ⟨fuel - 2, by omega⟩
    have hkN : (k : Int) < (N : Int) := by omega
    have hk1 : k = N - 1 := by omega
    have hacc' : accepted { u with metrics := mt } rd.round := hacc
    have hret : (processRound { u with metrics := mt } rd (env k).outcome).ret = .error e := by
      rw [(processRound_metrics u mt rd _).1, hk1]; exact he
    have hst := (processRound_of_not_allSucceed { u with metrics := mt } rd (env k).outcome
      hacc' hlen (hfail k (by omega))).2.1
    rw [attemptLoop_step_error (N : Int) rd env (f + 1) k err _ e hkN (hctx k (by omega)) hret]
    have hnot : ¬ (((k + 1 : Nat) : Int) < (N : Int)) := by push_cast; omega
    rw [attemptLoop_cond_false (N : Int) rd env f (k + 1) _ _ hnot]
    have hlast : ¬ ((k : Int) < (N : Int) - 1) := by omega
    refine ⟨rfl, ?_, ?_⟩
    · rcases hst with h | h
      · exact ⟨mt, h⟩
      · exact ⟨mt.IncSetRandomnessFailure, h⟩
    · simp only [LoopResult.after, hlast, if_false, List.append_nil, retrySchedule]
      have := loopEvents_processRound { u with metrics := mt } rd (env k).outcome
      unfold loopEvents at *
      simp [List.filter, Event.isLoopEvent, this]
  | succ m ih =>
    intro k err mt fuel hk hfuel
    obtain ⟨f, rfl⟩ : ∃ f, fuel = f + 1 := ⟨fuel - 1, by omega⟩
    have hkN : (k : Int) < (N : Int) := by omega
    have hacc' : accepted { u with metrics := mt } rd.round := hacc
    obtain ⟨⟨e', hret⟩, hst, _⟩ := processRound_of_not_allSucceed { u with metrics := mt } rd
      (env k).outcome hacc' hlen (hfail k (by omega))
    rw [attemptLoop_step_error (N : Int) rd env f k err _ e' hkN (hctx k (by omega)) hret]
    have hmid : (k : Int) < (N : Int) - 1 := by omega
    have hstate : ∃ mt1, (processRound { u with metrics := mt } rd (env k).outcome).state =
        { u with metrics := mt1 } := by
      rcases hst with h | h
      · exact ⟨mt, h⟩
      · exact ⟨mt.IncSetRandomnessFailure, h⟩
    obtain ⟨mt1, hmt1⟩ := hstate
    rw [hmt1]
    obtain ⟨h1, h2, h3⟩ := ih (k + 1) (some e') mt1 f (by omega) (by omega)
    refine ⟨h1, h2, ?_⟩
    simp only [LoopResult.after, hmid, if_true, retrySchedule]
    have := loopEvents_processRound { u with metrics := mt } rd (env k).outcome
    unfold loopEvents at *
    simp [List.filter, Event.isLoopEvent, this, h3]


/-- When `processRound` returns an error, the round was accepted, the randomness had its
32 bytes, and some answer was not a success. -/
theorem processRound_error_inv (u : Updater) (rd : roundData) (oc : Outcome) (e : Err)
    (h : (processRound u rd oc).ret = .error e) :
    accepted u rd.round ∧ 32 ≤ rd.randomness.length ∧ ¬ oc.allSucceed := by
  by_cases hs : skips u rd.round
  · rw [processRound_of_skips u rd oc hs] at h
    exact absurd h (by simp)
  · have hacc := (not_skips_iff u rd.round).1 hs
    by_cases hl : rd.randomness.length < 32
    · unfold processRound at h
      simp [hs, hl] at h
    · have hlen : 32 ≤ rd.randomness.length := by omega
      refine ⟨hacc, hlen, fun hall => ?_⟩
      rw [(processRound_of_allSucceed u rd oc hacc hlen hall).1] at h
      exact absurd h (by simp)

/-- C4: with `maxRetries = N ≥ 1`, a dequeued record whose processing returns an error
on every attempt, the context never done: `processRounds` calls `processRound` exactly
`N` times for it, waits exactly `N - 1` times, one backoff between each two consecutive
attempts and none after the last, then returns the error of the last attempt, having
dequeued no further record, with `latestOracleRound` unchanged. -/
theorem processRounds_exhausts_retries (u : Updater) (rd : roundData)
    (env : Nat → AttemptEnv) (rest : List QueueItem) (N : Nat)
    (hN : 1 ≤ N) (hmax : u.maxRetries = (N : Int))
    (hfail : ∀ j, j < N → ∃ e, (processRound u rd (env j).outcome).ret = .error e)
    (hctx : ∀ j, j < N → (env j).ctxDone = false) :
    ∃ e, (processRound u rd (env (N - 1)).outcome).ret = .error e ∧
      (processRounds u (.recv rd env :: rest)).exit = .returned e ∧
      loopEvents (processRounds u (.recv rd env :: rest)).trace =
        .dequeue rd :: retrySchedule 0 N ∧
      countCalls (processRounds u (.recv rd env :: rest)).trace = N ∧
      countBackoffs (processRounds u (.recv rd env :: rest)).trace = N - 1 ∧
      dequeued (processRounds u (.recv rd env :: rest)).trace = [rd] ∧
      (processRounds u (.recv rd env :: rest)).state.latestOracleRound =
        u.latestOracleRound := by
  obtain ⟨e, he⟩ := hfail (N - 1) (by omega)
  obtain ⟨e0, he0⟩ := hfail 0 (by omega)
  obtain ⟨hacc, hlen, _⟩ := processRound_error_inv u rd _ e0 he0
  have hfail' : ∀ j, j < N → ¬ (env j).outcome.allSucceed := by
    intro j hj
    obtain ⟨ej, hej⟩ := hfail j hj
    exact (processRound_error_inv u rd _ ej hej).2.2
  obtain ⟨h1, ⟨mt', h2⟩, h3⟩ := attemptLoop_all_fail u rd env N hacc hlen hfail' hctx e he
    (N - 1) 0 none u.metrics (N + 1) (by omega) (by omega)
  have hu : ({ u with metrics := u.metrics } : Updater) = u := rfl
  rw [hu] at h1 h2 h3
  have hN1 : N - 1 + 1 = N := by omega
  rw [hN1] at h3
  have hrun : processRounds u (.recv rd env :: rest) =
      ⟨.returned e, (attemptLoop (N : Int) rd env (N + 1) 0 none u).state,
        .dequeue rd :: (attemptLoop (N : Int) rd env (N + 1) 0 none u).trace⟩ := by
    have hto : ((N : Int)).toNat = N := Int.toNat_natCast N
    rw [processRounds]
    simp only [hmax, hto, h1]
  have hloop : loopEvents (processRounds u (.recv rd env :: rest)).trace =
      .dequeue rd :: retrySchedule 0 N := by
    rw [hrun]
    show loopEvents (_ :: _) = _
    unfold loopEvents at *
    simp [List.filter, Event.isLoopEvent, h3]
  obtain ⟨c1, c2, c3⟩ := counts_loopEvents (processRounds u (.recv rd env :: rest)).trace
  obtain ⟨s1, s2, s3⟩ := retrySchedule_counts N 0
  refine ⟨e, he, by rw [hrun], hloop, ?_, ?_, ?_, ?_⟩
  · rw [← c1, hloop]; simpa [countCalls] using s1
  · rw [← c2, hloop]; simpa [countBackoffs] using s2
  · rw [← c3, hloop]; simp [dequeued, s3]
  · rw [hrun]
    show (attemptLoop (N : Int) rd env (N + 1) 0 none u).state.latestOracleRound = _
    rw [h2]

/-- Three attempts on round 8, each mined with a failed receipt: three calls, the
backoffs of 1 s and 2 s, then the error; round 9 stays in the queue. -/
theorem processRounds_exhausts_retries_witness :
    ∃ e, (processRound (updaterRetries 3) (record 8) ocReverted).ret = .error e ∧
      (processRounds (updaterRetries 3)
        [.recv (record 8) (always ocReverted), .recv (record 9) (always ocSuccess)]).exit =
        .returned e ∧
      loopEvents (processRounds (updaterRetries 3)
        [.recv (record 8) (always ocReverted), .recv (record 9) (always ocSuccess)]).trace =
        [.dequeue (record 8), .callProcessRound 0, .backoff (some 1000000000),
          .callProcessRound 1, .backoff (some 2000000000), .callProcessRound 2] := by
  obtain ⟨e, h1, h2, h3, _⟩ := processRounds_exhausts_retries (updaterRetries 3) (record 8)
    (always ocReverted) [.recv (record 9) (always ocSuccess)] 3 (by decide) rfl
    (fun j _ => ⟨.txFailed, (by decide :
      (processRound (updaterRetries 3) (record 8) ocReverted).ret = .error .txFailed)⟩)
    (fun j _ => rfl)
  exact ⟨e, h1, h2, h3.trans (by decide)⟩


/-- With `maxRetries ≤ 0` the retry loop never runs: the record is dequeued and dropped,
and `processRounds` goes on with what arrives next. -/
theorem processRounds_no_attempt (u : Updater) (rd : roundData) (env : Nat → AttemptEnv)
    (rest : List QueueItem) (h : u.maxRetries ≤ 0) :
    processRounds u (.recv rd env :: rest) = (processRounds u rest).after [.dequeue rd] := by
  have hnot : ¬ (((0 : Nat) : Int) < u.maxRetries) := by push_cast; omega
  rw [processRounds, attemptLoop_cond_false u.maxRetries rd env _ 0 none u hnot]

/-- C5, the code at `maxRetries = 0`: round 8 passes validation at cursor 7 and its
processing would fail (the signer fails), yet `processRounds` never calls `processRound`,
returns no error, and goes on to dequeue round 9, which it drops as well. -/
theorem processRounds_zero_retries_drops :
    accepted (updaterRetries 0) (record 8).round ∧
      (processRound (updaterRetries 0) (record 8) ocSignFails).ret = .error (.external 1) ∧
      (processRounds (updaterRetries 0)
        [.recv (record 8) (always ocSignFails), .recv (record 9) (always ocSignFails)]).exit =
        .blocked ∧
      (processRounds (updaterRetries 0)
        [.recv (record 8) (always ocSignFails), .recv (record 9) (always ocSignFails)]).trace =
        [.dequeue (record 8), .dequeue (record 9)] ∧
      (processRounds (updaterRetries 0)
        [.recv (record 8) (always ocSignFails), .recv (record 9) (always ocSignFails)]).state =
        updaterRetries 0 := by
  refine ⟨by decide, by decide, by decide, by decide, by decide⟩

/-- The records dequeued in a concatenation. -/
theorem dequeued_append (a b : List Event) : dequeued (a ++ b) = dequeued a ++ dequeued b := by
  induction a with
  | nil => rfl
  | cons e a ih => cases e <;> simp [dequeued, ih]

/-- `processRound` dequeues nothing. -/
theorem dequeued_processRound (u : Updater) (rd : roundData) (oc : Outcome) :
    dequeued (processRound u rd oc).trace = [] := by
  rw [← (counts_loopEvents _).2.2, loopEvents_processRound]
  rfl

/-- The retry loop on a record every attempt of which fails, whatever the context does:
it ends with an error, by the end of the attempts or by `return ctx.Err()`. -/
theorem attemptLoop_fail_any_ctx (u : Updater) (rd : roundData) (env : Nat → AttemptEnv)
    (N : Nat) (hacc : accepted u rd.round) (hlen : 32 ≤ rd.randomness.length)
    (hfail : ∀ j, j < N → ¬ (env j).outcome.allSucceed) :
    ∀ (m k : Nat) (err : Option Err) (mt : Metrics) (fuel : Nat),
      k + m + 1 = N → m + 2 ≤ fuel →
        (∃ e, (attemptLoop (N : Int) rd env fuel k err { u with metrics := mt }).exit =
              .finished (some e) ∨
            (attemptLoop (N : Int) rd env fuel k err { u with metrics := mt }).exit =
              .returned e) ∧
          (∃ mt', (attemptLoop (N : Int) rd env fuel k err { u with metrics := mt }).state =
            { u with metrics := mt' }) ∧
          dequeued (attemptLoop (N : Int) rd env fuel k err { u with metrics := mt }).trace =
            [] := by
  intro m
  induction m with
  | zero =>
    intro k err mt fuel hk hfuel
    obtain ⟨f, rfl⟩ : ∃ f, fuel = f + 2 := ⟨fuel - 2, by omega⟩
    have hkN : (k : Int) < (N : Int) := by omega
    have hlast : ¬ ((k : Int) < (N : Int) - 1) := by omega
    have hacc' : accepted { u with metrics := mt } rd.round := hacc
    obtain ⟨⟨e, hret⟩, hst, _⟩ := processRound_of_not_allSucceed { u with metrics := mt } rd
      (env k).outcome hacc' hlen (hfail k (by omega))
    have hnot : ¬ (((k + 1 : Nat) : Int) < (N : Int)) := by push_cast; omega
    have hd := dequeued_processRound { u with metrics := mt } rd (env k).outcome
    rw [attemptLoop]
    simp only [hkN, if_true, hret, hlast, if_false]
    rw [attemptLoop_cond_false (N : Int) rd env f (k + 1) _ _ hnot]
    refine ⟨⟨e, Or.inl rfl⟩, ?_, ?_⟩
    · rcases hst with h | h
      · exact ⟨mt, h⟩
      · exact ⟨mt.IncSetRandomnessFailure, h⟩
    · simp [LoopResult.after, dequeued, hd]
  | succ m ih =>
    intro k err mt fuel hk hfuel
    obtain ⟨f, rfl⟩ : ∃ f, fuel = f + 1 := ⟨fuel - 1, by omega⟩
    have hkN : (k : Int) < (N : Int) := by omega
    have hmid : (k : Int) < (N : Int) - 1 := by omega
    have hacc' : accepted { u with metrics := mt } rd.round := hacc
    obtain ⟨⟨e, hret⟩, hst, _⟩ := processRound_of_not_allSucceed { u with metrics := mt } rd
      (env k).outcome hacc' hlen (hfail k (by omega))
    have hd := dequeued_processRound { u with metrics := mt } rd (env k).outcome
    have hstate : ∃ mt1, (processRound { u with metrics := mt } rd (env k).outcome).state =
        { u with metrics := mt1 } := by
      rcases hst with h | h
      · exact ⟨mt, h⟩
      · exact ⟨mt.IncSetRandomnessFailure, h⟩
    obtain ⟨mt1, hmt1⟩ := hstate
    rw [attemptLoop]
    simp only [hkN, if_true, hret, hmid]
    cases hctx : (env k).ctxDone
    · simp only [Bool.false_eq_true, if_false]
      rw [hmt1]
      obtain ⟨h1, h2, h3⟩ := ih (k + 1) (some e) mt1 f (by omega) (by omega)
      refine ⟨h1, h2, ?_⟩
      simp [LoopResult.after, dequeued, dequeued_append, hd, h3]
    · simp only [if_true]
      refine ⟨⟨.ctxDone, Or.inr rfl⟩, ⟨mt1, hmt1⟩, ?_⟩
      simp [dequeued, dequeued_append, hd]

/-- With `maxRetries ≥ 1`, a dequeued record whose processing returns an error whenever
it is attempted makes `processRounds` return an error, whatever the context does during
the backoffs: no further record is dequeued and the cursor stays. -/
theorem processRounds_fatal_of_positive_retries (u : Updater) (rd : roundData)
    (env : Nat → AttemptEnv) (rest : List QueueItem) (N : Nat)
    (hN : 1 ≤ N) (hmax : u.maxRetries = (N : Int))
    (hfail : ∀ j, j < N → ∃ e, (processRound u rd (env j).outcome).ret = .error e) :
    (∃ e, (processRounds u (.recv rd env :: rest)).exit = .returned e) ∧
      dequeued (processRounds u (.recv rd env :: rest)).trace = [rd] ∧
      (processRounds u (.recv rd env :: rest)).state.latestOracleRound =
        u.latestOracleRound := by
  obtain ⟨e0, he0⟩ := hfail 0 (by omega)
  obtain ⟨hacc, hlen, _⟩ := processRound_error_inv u rd _ e0 he0
  have hfail' : ∀ j, j < N → ¬ (env j).outcome.allSucceed := by
    intro j hj
    obtain ⟨ej, hej⟩ := hfail j hj
    exact (processRound_error_inv u rd _ ej hej).2.2
  obtain ⟨⟨e, h1⟩, ⟨mt', h2⟩, h3⟩ := attemptLoop_fail_any_ctx u rd env N hacc hlen hfail'
    (N - 1) 0 none u.metrics (N + 1) (by omega) (by omega)
  have hu : ({ u with metrics := u.metrics } : Updater) = u := rfl
  rw [hu] at h1 h2 h3
  have hto : ((N : Int)).toNat = N := Int.toNat_natCast N
  have hrun : processRounds u (.recv rd env :: rest) =
      ⟨.returned e, (attemptLoop (N : Int) rd env (N + 1) 0 none u).state,
        .dequeue rd :: (attemptLoop (N : Int) rd env (N + 1) 0 none u).trace⟩ := by
    rw [processRounds]
    rcases h1 with h1 | h1 <;> simp only [hmax, hto, h1]
  rw [hrun]
  refine ⟨⟨e, rfl⟩, ?_, ?_⟩
  · show dequeued (_ :: _) = _
    simp [dequeued, h3]
  · show (attemptLoop (N : Int) rd env (N + 1) 0 none u).state.latestOracleRound = _
    rw [h2]

/-! ### The backoff duration -/

/-- Below attempt 34 the `int64` product does not overflow. -/
theorem backoffDuration_exact (k : Nat) (hk : k ≤ 33) :
    backoffDuration k = some (2 ^ k * 1000000000) := by
  have h63 : k < 63 := by omega
  have hpow : (2 : Int) ^ k ≤ 2 ^ 33 := pow_le_pow_right₀ (by norm_num) hk
  unfold backoffDuration powDuration wrapInt64 Second
  simp only [h63, if_true, Option.map_some']
  congr 1
  have h0 : (0 : Int) ≤ 2 ^ k * 1000000000 + 2 ^ 63 := by positivity
  have h1 : (2 : Int) ^ k * 1000000000 + 2 ^ 63 < 2 ^ 64 := by
    have : (2 : Int) ^ k * 1000000000 ≤ 2 ^ 33 * 1000000000 :=
      mul_le_mul_of_nonneg_right hpow (by norm_num)
    norm_num at this ⊢
    omega
  rw [Int.emod_eq_of_lt h0 h1]
  ring

/-- C10, as the code has it: for every 0-based attempt `k < maxRetries - 1` with
`k ≤ 33`, the backoff that the retry loop waits after the failed attempt `k` is exactly
`2 ^ k` seconds, that is `2 ^ k * 10 ^ 9` nanoseconds, a function of `k` alone. -/
theorem processRounds_backoff_exact (maxRetries : Int) (rd : roundData)
    (env : Nat → AttemptEnv) (fuel k : Nat) (err : Option Err) (u : Updater) (e : Err)
    (hk : (k : Int) < maxRetries - 1) (h33 : k ≤ 33)
    (he : (processRound u rd (env k).outcome).ret = .error e) :
    backoffDuration k = some (2 ^ k * 10 ^ 9) ∧
      ((env k).ctxDone = true →
        attemptLoop maxRetries rd env (fuel + 1) k err u =
          ⟨.returned .ctxDone, (processRound u rd (env k).outcome).state,
            .callProcessRound k :: (processRound u rd (env k).outcome).trace ++
              [.backoff (some (2 ^ k * 10 ^ 9))]⟩) ∧
      ((env k).ctxDone = false →
        attemptLoop maxRetries rd env (fuel + 1) k err u =
          (attemptLoop maxRetries rd env fuel (k + 1) (some e)
            (processRound u rd (env k).outcome).state).after
            (.callProcessRound k :: (processRound u rd (env k).outcome).trace ++
              [.backoff (some (2 ^ k * 10 ^ 9))])) := by
  have hb : backoffDuration k = some (2 ^ k * 10 ^ 9) := by
    rw [backoffDuration_exact k h33]; norm_num
  have hk' : (k : Int) < maxRetries := by omega
  refine ⟨hb, fun hctx => ?_, fun hctx => ?_⟩
  · rw [attemptLoop]
    simp only [hk', hk, if_true, he, hctx, hb]
  · rw [attemptLoop_step_error maxRetries rd env fuel k err u e hk' hctx he]
    simp only [hk, if_true, hb]

/-- The backoff after the failed attempt 1 of three is 2 s. -/
theorem processRounds_backoff_exact_witness :
    backoffDuration 1 = some 2000000000 ∧
      loopEvents
          (attemptLoop 3 (record 8) (always ocReverted) 4 1 none (updaterRetries 3)).trace =
        [.callProcessRound 1, .backoff (some 2000000000), .callProcessRound 2] := by
  have h := processRounds_backoff_exact 3 (record 8) (always ocReverted) 3 1 none
    (updaterRetries 3) .txFailed (by decide) (by decide) (by decide)
  exact ⟨h.1.trans (by decide), by decide⟩

/-- C10 fails from attempt 34 on: `2 ^ 34 * 10 ^ 9` is not an `int64`, and with
`maxRetries = 36` the backoff after the failed attempt 34 is the wrapped, negative
duration `2 ^ 34 * 10 ^ 9 - 2 ^ 64` nanoseconds. -/
theorem processRounds_backoff_overflows :
    ((34 : Nat) : Int) < (updaterRetries 36).maxRetries - 1 ∧
      backoffDuration 34 = some (2 ^ 34 * 10 ^ 9 - 2 ^ 64) ∧
      backoffDuration 34 ≠ some (2 ^ 34 * 10 ^ 9) ∧
      Event.backoff (some (-1266874889709551616)) ∈
        (processRounds (updaterRetries 36) [.recv (record 8) (always ocReverted)]).trace := by
  refine ⟨by decide, by decide, by decide, by decide⟩


/-! ### The committed sequence -/

/-- The committed values of a concatenation. -/
theorem commits_append (a b : List Event) : commits (a ++ b) = commits a ++ commits b := by
  induction a with
  | nil => rfl
  | cons e a ih => cases e <;> simp [commits, ih]

/-- What one call of `processRound` commits, and where it leaves the cursor: nothing, the
cursor unchanged, or an accepted round, the cursor at it. The genesis round stays. -/
theorem processRound_commit_cases (u : Updater) (rd : roundData) (oc : Outcome) :
    (processRound u rd oc).state.genesisRound = u.genesisRound ∧
      ((commits (processRound u rd oc).trace = [] ∧
          (processRound u rd oc).state.latestOracleRound = u.latestOracleRound) ∨
        (commits (processRound u rd oc).trace = [rd.round] ∧
          (processRound u rd oc).state.latestOracleRound = rd.round ∧
          accepted u rd.round)) := by
  by_cases hs : skips u rd.round
  · rw [processRound_of_skips u rd oc hs]
    exact ⟨rfl, Or.inl ⟨rfl, rfl⟩⟩
  · have hacc := (not_skips_iff u rd.round).1 hs
    by_cases hl : rd.randomness.length < 32
    · have : processRound u rd oc = ⟨.panicked, u, []⟩ := by
        unfold processRound
        simp [hs, hl]
      rw [this]
      exact ⟨rfl, Or.inl ⟨rfl, rfl⟩⟩
    · have hlen : 32 ≤ rd.randomness.length := by omega
      by_cases hall : oc.allSucceed
      · obtain ⟨_, h2, h3⟩ := processRound_of_allSucceed u rd oc hacc hlen hall
        rw [h2]
        exact ⟨rfl, Or.inr ⟨h3, rfl, hacc⟩⟩
      · obtain ⟨_, h2, h3⟩ := processRound_of_not_allSucceed u rd oc hacc hlen hall
        rcases h2 with h2 | h2 <;> rw [h2] <;> exact ⟨rfl, Or.inl ⟨h3, rfl⟩⟩

/-- All that the guard of `processRound` ensures of the committed values of a run: each
is the genesis round or one past the cursor before it. -/
theorem feed_commitChain (items : List (roundData × Outcome)) :
    ∀ u : Updater,
      CommitChain u.genesisRound u.latestOracleRound (commits (feed u items).2) := by
  induction items with
  | nil => intro u; exact trivial
  | cons it rest ih =>
    intro u
    obtain ⟨rd, oc⟩ := it
    obtain ⟨hg, hc⟩ := processRound_commit_cases u rd oc
    have hih := ih (processRound u rd oc).state
    rw [hg] at hih
    have hfeed : commits (feed u ((rd, oc) :: rest)).2 = commits (processRound u rd oc).trace ∨
        commits (feed u ((rd, oc) :: rest)).2 =
          commits (processRound u rd oc).trace ++
            commits (feed (processRound u rd oc).state rest).2 := by
      rw [feed]
      cases hret : (processRound u rd oc).ret
      · right; simp only [commits_append]
      · right; simp only [commits_append]
      · left; rfl
    rcases hc with ⟨hc1, hc2⟩ | ⟨hc1, hc2, hacc⟩
    · rcases hfeed with hf | hf
      · rw [hf, hc1]; exact trivial
      · rw [hf, hc1, List.nil_append, ← hc2]; exact hih
    · rcases hfeed with hf | hf
      · rw [hf, hc1]; exact ⟨hacc, trivial⟩
      · rw [hf, hc1]
        rw [hc2] at hih
        exact ⟨hacc, hih⟩

/-- C2, the code at two failing inputs. The committed values should start at the genesis
round and go up by one; but with genesis round 5 and a fresh oracle, round 1 is accepted
(it is `latestOracleRound+1`), so the committed values start at 1; and after 5 and 6 are
committed the genesis round 5 is accepted again, so 5 follows 6. The guard of
`processRound` takes the genesis round at any cursor, where `catchUp` takes it only at
`latestOracleRound == 0`. -/
theorem feed_commits_not_sequential :
    (updater5 0).latestOracleRound = 0 ∧ (updater5 0).genesisRound = 5 ∧
      commits (feed (updater5 0) [(record 1, ocSuccess)]).2 = [1] ∧
      ¬ SpecCommits 5 (commits (feed (updater5 0) [(record 1, ocSuccess)]).2) ∧
      commits (feed (updater5 0)
        [(record 5, ocSuccess), (record 6, ocSuccess), (record 5, ocSuccess)]).2 = [5, 6, 5] ∧
      ¬ SpecCommits 5 (commits (feed (updater5 0)
        [(record 5, ocSuccess), (record 6, ocSuccess), (record 5, ocSuccess)]).2) := by
  have h1 : commits (feed (updater5 0) [(record 1, ocSuccess)]).2 = [1] := by decide
  have h2 : commits (feed (updater5 0)
      [(record 5, ocSuccess), (record 6, ocSuccess), (record 5, ocSuccess)]).2 = [5, 6, 5] := by
    decide
  refine ⟨rfl, rfl, h1, ?_, h2, ?_⟩
  · rw [h1]
    simp [SpecCommits]
  · rw [h2]
    simp [SpecCommits]


/-! ### `catchUp` -/

/-- Fetching and pushing a round and then further rounds. -/
theorem fetchPush_cons (rec : Nat → roundData) (r : Nat) (rs : List Nat) :
    fetchPush rec (r :: rs) = .drandGet r :: .push (rec r) :: fetchPush rec rs := by
  simp [fetchPush]

/-- The rounds pushed by fetching and pushing the rounds `rs`, when the record of round
`r` carries the round `r`. -/
theorem pushedRounds_fetchPush (rec : Nat → roundData) (hrec : ∀ r, (rec r).round = r)
    (rs : List Nat) : pushedRounds (fetchPush rec rs) = rs := by
  induction rs with
  | nil => rfl
  | cons r rs ih => rw [fetchPush_cons]; simp [pushedRounds, ih, hrec]

/-- The inner loop from `cur` with every fetch and push up to `b` succeeding, `b` below
the largest `uint64`: it fetches and pushes `cur`, …, `b` and is over. -/
theorem fetchLoop_range (env : CatchUpEnv) (rec : Nat → roundData) (b : Nat)
    (hb : b + 1 < 2 ^ 64) :
    ∀ (n cur fuel : Nat), b + 1 - cur = n → n + 1 ≤ fuel →
      (∀ r, cur ≤ r → r ≤ b → env.get r = .ok (rec r) ∧ env.ctxDone r = false) →
      fetchLoop env b fuel cur = (.finished, fetchPush rec (List.range' cur n)) := by
  intro n
  induction n with
  | zero =>
    intro cur fuel hn hfuel _
    obtain ⟨f, rfl⟩ : ∃ f, fuel = f + 1 := ⟨fuel - 1, by omega⟩
    have hgt : ¬ cur ≤ b := by omega
    rw [fetchLoop]
    simp [hgt, fetchPush]
  | succ n ih =>
    intro cur fuel hn hfuel henv
    obtain ⟨f, rfl⟩ : ∃ f, fuel = f + 1 := ⟨fuel - 1, by omega⟩
    have hle : cur ≤ b := by omega
    obtain ⟨hget, hctx⟩ := henv cur (le_refl _) hle
    have hmod : (cur + 1) % 2 ^ 64 = cur + 1 := Nat.mod_eq_of_lt (by omega)
    have hrec := ih (cur + 1) f (by omega) (by omega)
      (fun r h1 h2 => henv r (by omega) h2)
    rw [fetchLoop]
    simp only [hle, if_true, hget, hctx, hmod, hrec]
    rw [List.range'_succ, fetchPush_cons]
    simp

/-- The inner loop from `cur` when the fetch of round `r` fails with `e` and every fetch
and push before it succeeds: it pushes `cur`, …, `r - 1`, fetches `r` and returns `e`. -/
theorem fetchLoop_fetch_fails (env : CatchUpEnv) (rec : Nat → roundData) (b r : Nat) (e : Err)
    (hb : b < 2 ^ 64) (hrb : r ≤ b) (hr : env.get r = .error e) :
    ∀ (n cur fuel : Nat), cur + n = r → n + 1 ≤ fuel →
      (∀ q, cur ≤ q → q < r → env.get q = .ok (rec q) ∧ env.ctxDone q = false) →
      fetchLoop env b fuel cur =
        (.returned e, fetchPush rec (List.range' cur n) ++ [.drandGet r]) := by
  intro n
  induction n with
  | zero =>
    intro cur fuel hn hfuel _
    obtain ⟨f, rfl⟩ : ∃ f, fuel = f + 1 := ⟨fuel - 1, by omega⟩
    have hcur : cur = r := by omega
    subst hcur
    rw [fetchLoop]
    simp [hrb, hr, fetchPush]
  | succ n ih =>
    intro cur fuel hn hfuel henv
    obtain ⟨f, rfl⟩ : ∃ f, fuel = f + 1 := ⟨fuel - 1, by omega⟩
    have hle : cur ≤ b := by omega
    obtain ⟨hget, hctx⟩ := henv cur (le_refl _) (by omega)
    have hmod : (cur + 1) % 2 ^ 64 = cur + 1 := Nat.mod_eq_of_lt (by omega)
    have hrec := ih (cur + 1) f (by omega) (by omega)
      (fun q h1 h2 => henv q (by omega) h2)
    rw [fetchLoop]
    simp only [hle, if_true, hget, hctx, hmod, hrec]
    rw [List.range'_succ, fetchPush_cons]
    simp

/-- C6, as the code has it: a pass that reads the oracle cursor `o` and the beacon
cursor `b` with `o < b`, the beacon answering `get r` with the record of round `r` and
every push accepted. Let `s` be the genesis round if `o = 0` and `o + 1` otherwise. If
`b` is below the largest `uint64`, the pass fetches and pushes exactly `s`, `s + 1`, …,
`b` in ascending order, one fetch followed by one push at a time, and is over; and if
the fetch of a round `r` fails, `catchUp` returns that error, having pushed exactly
`s`, …, `r - 1`. -/
theorem catchUp_pass_pushes_range (genesisRound : Nat) (env : CatchUpEnv)
    (rec : Nat → roundData) (o b s : Nat) (hob : o < b) (hb : b < 2 ^ 64)
    (hrec : ∀ r, (rec r).round = r)
    (hs : s = if o = 0 then genesisRound else o + 1) :
    (b + 1 < 2 ^ 64 →
      (∀ r, s ≤ r → r ≤ b → env.get r = .ok (rec r) ∧ env.ctxDone r = false) →
      ∀ fuel, b + 1 - s < fuel →
        catchUpPass genesisRound env fuel b o =
            (.again, fetchPush rec (List.range' s (b + 1 - s))) ∧
          pushedRounds (catchUpPass genesisRound env fuel b o).2 =
            List.range' s (b + 1 - s)) ∧
      (∀ (r : Nat) (e : Err), s ≤ r → r ≤ b → env.get r = .error e →
        (∀ q, s ≤ q → q < r → env.get q = .ok (rec q) ∧ env.ctxDone q = false) →
        ∀ (cursors : Nat → Nat × Nat) (pass fuel : Nat), cursors pass = (b, o) →
          r + 1 - s ≤ fuel →
          catchUp genesisRound env cursors (fuel + 1) pass =
              (.returned (some e), fetchPush rec (List.range' s (r - s)) ++ [.drandGet r]) ∧
            pushedRounds (catchUp genesisRound env cursors (fuel + 1) pass).2 =
              List.range' s (r - s)) := by
  have hne : ¬ b = o := by omega
  have hstart : startRound genesisRound o = s := by
    unfold startRound
    by_cases h0 : o = 0
    · simp only [h0, if_true] at hs ⊢
      exact hs.symm
    · have hmod : (o + 1) % 2 ^ 64 = o + 1 := Nat.mod_eq_of_lt (by omega)
      simp only [h0, if_false] at hs ⊢
      rw [hmod]
      exact hs.symm
  have hpush : ∀ rs : List Nat, ∀ q : Nat,
      pushedRounds (fetchPush rec rs ++ [.drandGet q]) = rs := by
    intro rs q
    induction rs with
    | nil => rfl
    | cons r rs ih => rw [fetchPush_cons]; simp [pushedRounds, ih, hrec]
  refine ⟨fun hb1 henv fuel hfuel => ?_, fun r e hsr hrb hr henv cursors pass fuel hcur hfuel => ?_⟩
  · have h := fetchLoop_range env rec b hb1 (b + 1 - s) s fuel rfl (by omega) henv
    have hpass : catchUpPass genesisRound env fuel b o =
        (.again, fetchPush rec (List.range' s (b + 1 - s))) := by
      unfold catchUpPass
      simp only [hne, if_false, hstart, h]
    rw [hpass]
    exact ⟨rfl, pushedRounds_fetchPush rec hrec _⟩
  · have h := fetchLoop_fetch_fails env rec b r e hb hrb hr (r - s) s fuel (by omega)
      (by omega) henv
    have hrun : catchUp genesisRound env cursors (fuel + 1) pass =
        (.returned (some e), fetchPush rec (List.range' s (r - s)) ++ [.drandGet r]) := by
      rw [catchUp, hcur]
      unfold catchUpPass
      simp only [hne, if_false, hstart, h]
    rw [hrun]
    exact ⟨rfl, hpush _ _⟩

/-- Backfill from oracle cursor 100 to beacon cursor 103 pushes 101, 102, 103 in that
order; from a fresh oracle (cursor 0) with genesis round 5 to beacon cursor 7 it pushes
5, 6, 7; when the fetch of 103 fails, 101 and 102 are pushed and the error is returned. -/
theorem catchUp_pass_pushes_range_witness :
    catchUpPass 5 beaconAll 4 103 100 =
        (.again, [.drandGet 101, .push (record 101), .drandGet 102, .push (record 102),
          .drandGet 103, .push (record 103)]) ∧
      pushedRounds (catchUpPass 5 beaconAll 4 7 0).2 = [5, 6, 7] ∧
      catchUp 5 beaconFails103 (fun _ => (103, 100)) 4 0 =
        (.returned (some (.external 4)),
          [.drandGet 101, .push (record 101), .drandGet 102, .push (record 102),
            .drandGet 103]) := by
  have h := catchUp_pass_pushes_range 5 beaconAll record 100 103 101 (by decide) (by decide)
    (fun _ => rfl) (by decide)
  have h1 := (h.1 (by decide) (fun r _ _ => ⟨rfl, rfl⟩) 4 (by decide)).1
  have g := catchUp_pass_pushes_range 5 beaconAll record 0 7 5 (by decide) (by decide)
    (fun _ => rfl) (by decide)
  have g1 := (g.1 (by decide) (fun r _ _ => ⟨rfl, rfl⟩) 4 (by decide)).2
  have f := catchUp_pass_pushes_range 5 beaconFails103 record 100 103 101 (by decide)
    (by decide) (fun _ => rfl) (by decide)
  have f1 := (f.2 103 (.external 4) (by decide) (by decide) rfl
    (fun q h1 h2 => ⟨by
      have hq : q ≠ 103 := by omega
      simp [beaconFails103, hq], rfl⟩)
    (fun _ => (103, 100)) 0 3 rfl (by decide)).1
  exact ⟨h1.trans (by decide), g1.trans (by decide), f1.trans (by decide)⟩

/-- At the largest beacon cursor the inner loop is never over: whatever the fuel, it
runs out of it. -/
theorem fetchLoop_max_never_ends :
    ∀ (fuel cur : Nat), cur < 2 ^ 64 →
      (fetchLoop beaconAll (2 ^ 64 - 1) fuel cur).1 = .outOfFuel := by
  intro fuel
  induction fuel with
  | zero => intro cur _; rfl
  | succ f ih =>
    intro cur hcur
    have hle : cur ≤ 2 ^ 64 - 1 := by omega
    have hnext := ih ((cur + 1) % 2 ^ 64) (Nat.mod_lt _ (by norm_num))
    rw [fetchLoop]
    simp only [hle, if_true, beaconAll]
    exact hnext

/-- C6 fails at the largest beacon cursor: with `o = 2 ^ 64 - 2` and `b = 2 ^ 64 - 1`
the pass pushes round `2 ^ 64 - 1`, then `currentRound++` wraps to 0 and the pass goes
on to fetch and push the rounds 0, 1, …; it is never over. -/
theorem catchUp_pass_wraps :
    2 ^ 64 - 2 < 2 ^ 64 - 1 ∧
      pushedRounds (catchUpPass 5 beaconAll 3 (2 ^ 64 - 1) (2 ^ 64 - 2)).2 =
        [2 ^ 64 - 1, 0, 1] ∧
      ¬ ∃ fuel, (catchUpPass 5 beaconAll fuel (2 ^ 64 - 1) (2 ^ 64 - 2)).1 = .again := by
  refine ⟨by decide, by decide, ?_⟩
  rintro ⟨fuel, h⟩
  have hne : ¬ (2 ^ 64 - 1 = 2 ^ 64 - 2) := by decide
  have hloop := fetchLoop_max_never_ends fuel (startRound 5 (2 ^ 64 - 2)) (by decide)
  unfold catchUpPass at h
  simp only [hne, if_false] at h
  revert h
  cases hfl : fetchLoop beaconAll (2 ^ 64 - 1) fuel (startRound 5 (2 ^ 64 - 2)) with
  | mk ex t =>
    rw [hfl] at hloop
    simp only at hloop
    subst hloop
    simp

/-- A pass with the oracle cursor strictly ahead of the beacon cursor fetches and pushes
nothing and leaves the outer loop running. -/
theorem catchUpPass_ahead (genesisRound : Nat) (env : CatchUpEnv) (o b fuel : Nat)
    (hbo : b < o) (ho : o + 1 < 2 ^ 64) :
    catchUpPass genesisRound env (fuel + 1) b o = (.again, []) := by
  have hne : ¬ b = o := by omega
  have ho0 : ¬ o = 0 := by omega
  have hmod : (o + 1) % 2 ^ 64 = o + 1 := Nat.mod_eq_of_lt ho
  have hgt : ¬ o + 1 ≤ b := by omega
  unfold catchUpPass startRound
  simp only [hne, ho0, if_false, hmod, fetchLoop, hgt]

/-- With the cursors fixed at a pair where the oracle is strictly ahead, `catchUp` runs
out of any fuel without an event. -/
theorem catchUp_ahead_spins (genesisRound : Nat) (env : CatchUpEnv) (o b : Nat)
    (hbo : b < o) (ho : o + 1 < 2 ^ 64) :
    ∀ (fuel pass : Nat),
      catchUp genesisRound env (fun _ => (b, o)) fuel pass = (.outOfFuel, []) := by
  intro fuel
  induction fuel with
  | zero => intro pass; rfl
  | succ f ih =>
    intro pass
    rw [catchUp]
    cases f with
    | zero =>
      have hne : ¬ b = o := by omega
      simp only [catchUpPass, hne, if_false, fetchLoop]
    | succ f =>
      simp only [catchUpPass_ahead genesisRound env o b f hbo ho, ih (pass + 1)]
      rfl

/-- C9, as the code has it: when a pass reads equal cursors, whatever their value,
`catchUp` returns `nil` without fetching or pushing any round. When it reads the oracle
cursor strictly ahead of the beacon cursor (the oracle cursor below the largest
`uint64`), the pass fetches and pushes nothing and the outer loop goes on to its next
pass; with the cursors fixed at such a pair `catchUp` never returns. -/
theorem catchUp_no_longer_behind (genesisRound : Nat) (env : CatchUpEnv) (o b : Nat) :
    (o = b → ∀ (cursors : Nat → Nat × Nat) (pass fuel : Nat), cursors pass = (b, o) →
        catchUp genesisRound env cursors (fuel + 1) pass = (.returned none, [])) ∧
      (b < o → o + 1 < 2 ^ 64 →
        (∀ fuel, catchUpPass genesisRound env (fuel + 1) b o = (.again, [])) ∧
        ∀ fuel pass, catchUp genesisRound env (fun _ => (b, o)) fuel pass =
          (.outOfFuel, [])) := by
  refine ⟨fun heq cursors pass fuel hcur => ?_, fun hlt ho => ?_⟩
  · rw [catchUp, hcur]
    simp only [catchUpPass, heq, if_true]
  · exact ⟨fun fuel => catchUpPass_ahead genesisRound env o b fuel hlt ho,
      catchUp_ahead_spins genesisRound env o b hlt ho⟩

/-- With both cursors at 7, and with both at the largest `uint64`, `catchUp` returns
`nil` at once; with the oracle at 5 and the beacon at 3 a pass does nothing and `catchUp`
is still running after 1000 passes. -/
theorem catchUp_no_longer_behind_witness :
    catchUp 5 beaconAll (fun _ => (7, 7)) 1 0 = (.returned none, []) ∧
      catchUp 5 beaconAll (fun _ => (2 ^ 64 - 1, 2 ^ 64 - 1)) 1 0 = (.returned none, []) ∧
      catchUpPass 5 beaconAll 1 3 5 = (.again, []) ∧
      catchUp 5 beaconAll (fun _ => (3, 5)) 1000 0 = (.outOfFuel, []) :=
  ⟨(catchUp_no_longer_behind 5 beaconAll 7 7).1 rfl (fun _ => (7, 7)) 0 0 rfl,
    (catchUp_no_longer_behind 5 beaconAll (2 ^ 64 - 1) (2 ^ 64 - 1)).1 rfl
      (fun _ => (2 ^ 64 - 1, 2 ^ 64 - 1)) 0 0 rfl,
    ((catchUp_no_longer_behind 5 beaconAll 5 3).2 (by decide) (by decide)).1 0,
    ((catchUp_no_longer_behind 5 beaconAll 5 3).2 (by decide) (by decide)).2 1000 0⟩

/-- C9 fails when the oracle cursor is strictly ahead: with the cursors fixed at oracle 5
and beacon 3, `catchUp` never returns, whatever the fuel. -/
theorem catchUp_ahead_never_returns :
    3 < 5 ∧ ¬ ∃ fuel, (catchUp 5 beaconAll (fun _ => (3, 5)) fuel 0).1 = .returned none := by
  refine ⟨by decide, ?_⟩
  rintro ⟨fuel, h⟩
  rw [catchUp_ahead_spins 5 beaconAll 5 3 (by decide) (by decide) fuel 0] at h
  exact absurd h (by simp)

/-! ### `Start` -/

/-- C8: at a startup whose fetches all succeed, if the chain hash of the oracle contract
differs from the hash of the beacon info, `Start` returns the chain-hash-mismatch error,
launches none of the four drivers, pushes nothing and submits no transaction; if the
two are equal byte for byte, that error is not returned and the four drivers
`processRounds`, `catchUp`, `watchNewRounds`, `monitorBalance` are launched. -/
theorem Start_chain_hash (u : Updater) (env : StartEnv) (er lr dr : Nat) (info : Info)
    (h : Bytes) (h1 : env.earliestRound = .ok er) (h2 : env.latestRound = .ok lr)
    (h3 : env.drandLatest = .ok dr) (h4 : env.info = .ok info)
    (h5 : env.chainHash = .ok h) :
    (h ≠ info.hash →
      (Start u env).1 = .failed .chainHashMismatch ∧
        launchedDrivers (Start u env).2 = [] ∧
        ∀ ev ∈ (Start u env).2, ev.isPushOrSubmit = false) ∧
      (h = info.hash →
        (Start u env).1 ≠ .failed .chainHashMismatch ∧
          (Start u env).1 = .launched { u with
            latestOracleRound := lr
            latestDrandRound := dr
            drandInfo := info } ∧
          launchedDrivers (Start u env).2 =
            [.processRounds, .catchUp, .watchNewRounds, .monitorBalance]) := by
  refine ⟨fun hne => ?_, fun heq => ?_⟩
  · have hs : Start u env = (.failed .chainHashMismatch,
        [.earliestRound, .latestRound, .drandGet 0, .drandInfo, .chainHash]) := by
      unfold Start
      simp [h1, h2, h3, h4, h5, hne]
    rw [hs]
    refine ⟨rfl, rfl, ?_⟩
    intro ev hev
    simp only [List.mem_cons, List.mem_singleton, List.not_mem_nil, or_false] at hev
    rcases hev with rfl | rfl | rfl | rfl | rfl <;> rfl
  · have hs : Start u env = (.launched { u with
          latestOracleRound := lr
          latestDrandRound := dr
          drandInfo := info },
        [.earliestRound, .latestRound, .drandGet 0, .drandInfo, .chainHash,
          .launch .processRounds, .launch .catchUp, .launch .watchNewRounds,
          .launch .monitorBalance]) := by
      unfold Start
      simp [h1, h2, h3, h4, h5, heq]
    rw [hs]
    exact ⟨by simp, rfl, rfl⟩

/-- The beacon hash is `[7]`: a contract holding `[8]` stops the startup, a contract
holding `[7]` lets the four drivers start. -/
theorem Start_chain_hash_witness :
    (Start (updater5 0) (startEnv [8])).1 = .failed .chainHashMismatch ∧
      launchedDrivers (Start (updater5 0) (startEnv [8])).2 = [] ∧
      launchedDrivers (Start (updater5 0) (startEnv [7])).2 =
        [.processRounds, .catchUp, .watchNewRounds, .monitorBalance] := by
  have ha := (Start_chain_hash (updater5 0) (startEnv [8]) 5 7 12 info30 [8]
    rfl rfl rfl rfl rfl).1 (by decide)
  have hb := (Start_chain_hash (updater5 0) (startEnv [7]) 5 7 12 info30 [7]
    rfl rfl rfl rfl rfl).2 (by decide)
  exact ⟨ha.1, ha.2.1, hb.2.2⟩

end DrandOracle
